import Mathlib

/-!
Shallow embedding of the reviewer-assignment GitHub action
(iCHEF/action-request-review) and proofs about its selection pipeline.

The repository contains several variants of one script.  We embed:

* the load-ranked variant (source file `src/unnamed/part_000`):
  `getReviewLoadingOfUser`, `getUsersSortedByReviewLoading`,
  `getReviewers`, `createRateLimiter`, `run`;
* the random-pick variant (source file `src/src/index.js`, first script):
  `randomPick`, `getReviewers`.

Network reads are modelled by explicit parameters: the parsed Config is an
argument (the gist fetch is outside the core), the search-API counts are an
oracle argument, and the lodash shuffle inside `randomPick` is modelled by
passing the shuffled list (constrained to be a permutation of the
candidates where a property needs it).  JavaScript numbers that hold search
counts and the 0.5 mentee weight are modelled by rationals; integer inputs
such as the target count are modelled by integers.
-/

set_option maxHeartbeats 1000000

namespace RequestReview

/-- An exception raised by the script; `typeError` models the TypeError
thrown by JavaScript when a property of `undefined` is accessed. -/
inductive JsError where
  | typeError
  | other (msg : String)
deriving DecidableEq, Repr

/-- Truthiness of an optional JavaScript string: `undefined` and the empty
string are falsy, every other string is truthy. -/
def jsTruthy : Option String → Bool
  | none => false
  | some s => s ≠ ""

/-- Model of lodash `_.difference(l, e₁, e₂, …)`: the elements of `l` that
occur in none of the exclusion lists, in their original order. -/
def ldDifference (l : List String) (excls : List (List String)) : List String :=
  l.filter (fun x => !excls.any (fun e => e.contains x))

/-- Model of lodash `_.difference` applied to the result of a `find` that
may be `undefined`: lodash returns `[]` when the first argument is not an
array-like object. -/
def ldDifferenceOpt (l : Option (List String)) (excls : List (List String)) : List String :=
  match l with
  | none => []
  | some l => ldDifference l excls

/-- Model of lodash `_.take(l, n)` for an integer count: a negative count
is clamped to `0`. -/
def ldTake (l : List String) (n : Int) : List String :=
  l.take n.toNat

/-- Model of lodash `_.uniq`: keep the first occurrence of each element. -/
def ldUniq : List String → List String
  | [] => []
  | x :: xs => x :: (ldUniq xs).filter (fun y => y ≠ x)

/-- Stable insertion of `x` into `l` for a rational sort key: `x` is placed
before the first element whose key is `≥ key x`, hence after nothing it
preceded and before later elements with an equal key. -/
def sortInsertBy {α : Type} (key : α → ℚ) (x : α) : List α → List α
  | [] => [x]
  | y :: ys => if key x ≤ key y then x :: y :: ys else y :: sortInsertBy key x ys

/-- Model of lodash `_.sortBy(l, key)`: a stable ascending sort by a
rational key (lodash documents its sort as stable). -/
def ldSortBy {α : Type} (key : α → ℚ) : List α → List α
  | [] => []
  | x :: xs => sortInsertBy key x (ldSortBy key xs)

theorem mem_sortInsertBy {α : Type} (key : α → ℚ) (x a : α) (l : List α) :
    a ∈ sortInsertBy key x l ↔ a = x ∨ a ∈ l := by
  induction l with
  | nil => simp [sortInsertBy]
  | cons y ys ih =>
      by_cases h : key x ≤ key y
      · simp [sortInsertBy, h]
      · simp [sortInsertBy, h, ih]
        tauto

theorem sortInsertBy_perm {α : Type} (key : α → ℚ) (x : α) (l : List α) :
    (sortInsertBy key x l).Perm (x :: l) := by
  induction l with
  | nil => simp [sortInsertBy]
  | cons y ys ih =>
      by_cases h : key x ≤ key y
      · simp [sortInsertBy, h]
      · simp only [sortInsertBy, h, if_false]
        exact ((ih.cons y).trans (List.Perm.swap x y ys))

theorem ldSortBy_perm {α : Type} (key : α → ℚ) (l : List α) :
    (ldSortBy key l).Perm l := by
  induction l with
  | nil => simp [ldSortBy]
  | cons x xs ih =>
      exact (sortInsertBy_perm key x (ldSortBy key xs)).trans (ih.cons x)

theorem mem_ldSortBy {α : Type} (key : α → ℚ) (a : α) (l : List α) :
    a ∈ ldSortBy key l ↔ a ∈ l :=
  (ldSortBy_perm key l).mem_iff

theorem length_ldSortBy {α : Type} (key : α → ℚ) (l : List α) :
    (ldSortBy key l).length = l.length :=
  (ldSortBy_perm key l).length_eq

theorem pairwise_sortInsertBy {α : Type} (key : α → ℚ) (x : α) (l : List α)
    (h : l.Pairwise (fun a b => key a ≤ key b)) :
    (sortInsertBy key x l).Pairwise (fun a b => key a ≤ key b) := by
  induction l with
  | nil => simp [sortInsertBy]
  | cons y ys ih =>
      rcases List.pairwise_cons.mp h with ⟨hy, hys⟩
      by_cases hxy : key x ≤ key y
      · rw [sortInsertBy, if_pos hxy]
        refine List.pairwise_cons.mpr ⟨?_, h⟩
        intro b hb
        rcases List.mem_cons.mp hb with rfl | hb
        · exact hxy
        · exact le_trans hxy (hy b hb)
      · rw [sortInsertBy, if_neg hxy]
        refine List.pairwise_cons.mpr ⟨?_, ih hys⟩
        intro b hb
        rcases (mem_sortInsertBy key x b ys).mp hb with rfl | hb
        · exact le_of_lt (lt_of_not_le hxy)
        · exact hy b hb

theorem pairwise_ldSortBy {α : Type} (key : α → ℚ) (l : List α) :
    (ldSortBy key l).Pairwise (fun a b => key a ≤ key b) := by
  induction l with
  | nil => simp [ldSortBy]
  | cons x xs ih => exact pairwise_sortInsertBy key x (ldSortBy key xs) ih

theorem filter_sortInsertBy {α : Type} (key : α → ℚ) (x : α) (l : List α) (q : ℚ) :
    (sortInsertBy key x l).filter (fun y => decide (key y = q)) =
      if key x = q then x :: l.filter (fun y => decide (key y = q))
      else l.filter (fun y => decide (key y = q)) := by
  induction l with
  | nil =>
      by_cases hx : key x = q <;> simp [sortInsertBy, List.filter, hx]
  | cons y ys ih =>
      by_cases hxy : key x ≤ key y
      · rw [sortInsertBy, if_pos hxy]
        by_cases hx : key x = q <;> simp [List.filter_cons, hx]
      · rw [sortInsertBy, if_neg hxy]
        by_cases hy : key y = q
        · have hx : ¬ key x = q := fun hx => hxy (le_of_eq (hx.trans hy.symm))
          simp [List.filter_cons, hy, hx, ih, hx]
        · by_cases hx : key x = q <;>
            simp [List.filter_cons, hy, hx, ih]

theorem filter_ldSortBy {α : Type} (key : α → ℚ) (l : List α) (q : ℚ) :
    (ldSortBy key l).filter (fun y => decide (key y = q)) =
      l.filter (fun y => decide (key y = q)) := by
  induction l with
  | nil => simp [ldSortBy]
  | cons x xs ih =>
      rw [ldSortBy, filter_sortInsertBy]
      by_cases hx : key x = q <;> simp [List.filter_cons, hx, ih]

/-!
## Data model

The parsed YAML configuration.  `teams` models `Object.values(config.teams)`
in its iteration order, `mentors` models the mentee-to-mentor object as an
association list (JavaScript objects have at most one value per key).
-/

structure Config where
  teams : List (List String)
  mentorshipGroups : List (List String)
  mentors : List (String × String)
deriving Repr

/-- `config.mentors[username]`: `undefined` is modelled as `none`. -/
def Config.mentorLookup (cfg : Config) (username : String) : Option String :=
  (cfg.mentors.find? (fun p => p.1 == username)).map Prod.snd

/-!
## Review-Load Estimator (variant `src/unnamed/part_000`)

`getReviewLoadingOfUser` issues two search queries for the raw counts and,
only when the user has mentees, two more restricted to mentee-authored
items.  The network is modelled by an oracle giving the `total_count` of
each of the four possible queries; the function also returns the list of
queries it actually issued, so that the skipped sub-queries are visible.
-/

inductive SearchQuery where
  | requested
  | reviewed
  | menteeRequested
  | menteeReviewed
deriving DecidableEq, Repr

/-- `MENTEE_PULL_WEIGHT_RATIO` in the source. -/
def menteePullWeight : ℚ := 1 / 2

/-- Embedding of `getReviewLoadingOfUser(username, menteesList)`.  Returns
the load score together with the search queries that were issued. -/
def getReviewLoadingOfUser (results : SearchQuery → ℚ) (menteesList : List String) :
    ℚ × List SearchQuery :=
  let countOfRequestedPulls := results .requested
  let countOfReviewdPulls := results .reviewed
  let totalCountOfPulls := countOfRequestedPulls + countOfReviewdPulls
  if menteesList.length < 1 then
    (totalCountOfPulls, [.requested, .reviewed])
  else
    let countOfRequestedPullsFromMentee := results .menteeRequested
    let countOfReviewdPullsFromMentee := results .menteeReviewed
    (totalCountOfPulls
        - countOfRequestedPullsFromMentee * menteePullWeight
        - countOfReviewdPullsFromMentee * menteePullWeight,
      [.requested, .reviewed, .menteeRequested, .menteeReviewed])

/-- Embedding of `getUsersSortedByReviewLoading(usernamesList, mentorMap)`:
each username is scored (the mentee computation and the four sub-queries
are absorbed into the `loading` oracle, which gives each user the score
`getReviewLoadingOfUser` would compute from the query results) and the list
is sorted ascending with lodash `_.sortBy`, which is a stable sort.  The
`{username, reviewLoading}` records are represented by the username, with
the score recoverable through `loading`. -/
def getUsersSortedByReviewLoading (loading : String → ℚ) (usernamesList : List String) :
    List String :=
  ldSortBy loading usernamesList

/-!
## Selector, load-ranked variant (`getReviewers` of `src/unnamed/part_000`)

Each `let` of the source function becomes a top-level definition;
`getReviewersRanked` is their composition.
-/

/-- `targetCount = core.getInput('count') - initialReviewers.length`. -/
def rankedTargetCount (initialReviewers : List String) (count : Int) : Int :=
  count - initialReviewers.length

/-- The team pool: the first team containing the author (or `undefined`),
minus the already-involved users, the author and the mentor value. -/
def rankedTeamPool (cfg : Config) (author : String) (initialReviewers : List String) :
    List String :=
  ldDifferenceOpt (cfg.teams.find? (fun teamMembers => teamMembers.contains author))
    [initialReviewers, [author] ++ (cfg.mentorLookup author).toList]

/-- `firstBatchCandidates`: the mentor (when truthy) is prepended, with a
sentinel loading, to the load-sorted team pool.  Note that the source does
NOT filter the mentor against `initialReviewers` here. -/
def rankedFirstBatch (cfg : Config) (loading : String → ℚ) (author : String)
    (initialReviewers : List String) : List String :=
  let mentor := cfg.mentorLookup author
  if jsTruthy mentor then
    mentor.toList ++ getUsersSortedByReviewLoading loading (rankedTeamPool cfg author initialReviewers)
  else
    getUsersSortedByReviewLoading loading (rankedTeamPool cfg author initialReviewers)

/-- `reviewers = _.take(firstBatchCandidates, targetCount)`. -/
def rankedFirstTaken (cfg : Config) (loading : String → ℚ) (author : String)
    (initialReviewers : List String) (count : Int) : List String :=
  ldTake (rankedFirstBatch cfg loading author initialReviewers)
    (rankedTargetCount initialReviewers count)

/-- The mentorship-group pool: the first group containing the author (or
`undefined`), minus the already-involved users, the reviewers taken so far
and the author. -/
def rankedGroupPool (cfg : Config) (loading : String → ℚ) (author : String)
    (initialReviewers : List String) (count : Int) : List String :=
  ldDifferenceOpt (cfg.mentorshipGroups.find? (fun group => group.contains author))
    [initialReviewers, rankedFirstTaken cfg loading author initialReviewers count, [author]]

/-- The extra reviewers drawn from the mentorship group, which the source
computes only under `reviewers.length < targetCount`. -/
def rankedGroupTaken (cfg : Config) (loading : String → ℚ) (author : String)
    (initialReviewers : List String) (count : Int) : List String :=
  if ((rankedFirstTaken cfg loading author initialReviewers count).length : Int) <
      rankedTargetCount initialReviewers count then
    ldTake (getUsersSortedByReviewLoading loading
        (rankedGroupPool cfg loading author initialReviewers count))
      (rankedTargetCount initialReviewers count -
        (rankedFirstTaken cfg loading author initialReviewers count).length)
  else []

/-- Embedding of `getReviewers(author, initialReviewers)` of the load-ranked
variant: mentor-plus-team batch truncated to the target, then, if the
target is not met, load-sorted mentorship-group members fill the rest. -/
def getReviewersRanked (cfg : Config) (loading : String → ℚ) (author : String)
    (initialReviewers : List String) (count : Int) : List String :=
  rankedFirstTaken cfg loading author initialReviewers count ++
    rankedGroupTaken cfg loading author initialReviewers count

/-!
## Random-pick variant (`src/src/index.js`, first script)

`randomPick(pickCount, candidates)` shuffles a copy of the candidate list
and pops elements off its end while fewer than `pickCount` results are
collected.  The call to lodash `_.shuffle` is modelled by passing in the
shuffled list; where a property needs it, the shuffled list is constrained
to be a permutation of the original candidates.
-/

/-- The `while (results.length < pickCount && shuffledCandidates.length > 0)`
loop of `randomPick`: pop the last element of the shuffled list onto the
results until the count is reached or the list is exhausted. -/
def randomPickAux (pickCount : Int) (results shuffledCandidates : List String) :
    List String :=
  if h : (results.length : Int) < pickCount ∧ shuffledCandidates ≠ [] then
    randomPickAux pickCount (results ++ [shuffledCandidates.getLast h.2])
      shuffledCandidates.dropLast
  else results
termination_by shuffledCandidates.length
decreasing_by
  have hpos : 0 < shuffledCandidates.length := List.length_pos.mpr h.2
  simp only [List.length_dropLast]
  omega

/-- Embedding of `randomPick(pickCount, candidates)`, with the shuffle made
explicit: the second argument is the shuffled copy of the candidates. -/
def randomPick (pickCount : Int) (shuffledCandidates : List String) : List String :=
  randomPickAux pickCount [] shuffledCandidates

theorem randomPickAux_eq (pickCount : Int) (shuffledCandidates : List String) :
    ∀ results : List String,
      randomPickAux pickCount results shuffledCandidates =
        results ++ shuffledCandidates.reverse.take (pickCount - results.length).toNat := by
  induction shuffledCandidates using List.reverseRecOn with
  | nil =>
      intro results
      rw [randomPickAux]
      simp
  | append_singleton l a ih =>
      intro results
      rw [randomPickAux]
      by_cases hlt : (results.length : Int) < pickCount
      · have hne : l ++ [a] ≠ [] := by simp
        rw [dif_pos ⟨hlt, hne⟩]
        rw [List.getLast_append, List.dropLast_concat, ih]
        have hrev : (l ++ [a]).reverse = a :: l.reverse := by simp
        rw [hrev]
        have h1 : (pickCount - results.length).toNat =
            (pickCount - (results ++ [a]).length).toNat + 1 := by
          simp only [List.length_append, List.length_cons, List.length_nil]
          omega
        rw [h1]
        simp [List.take_succ_cons]
      · have hcond : ¬ ((results.length : Int) < pickCount ∧ l ++ [a] ≠ []) := by
          intro hc
          exact hlt hc.1
        rw [dif_neg hcond]
        have h0 : (pickCount - results.length).toNat = 0 := by omega
        rw [h0]
        simp

theorem randomPick_eq (pickCount : Int) (shuffledCandidates : List String) :
    randomPick pickCount shuffledCandidates =
      shuffledCandidates.reverse.take pickCount.toNat := by
  rw [randomPick, randomPickAux_eq]
  simp

theorem length_randomPick (pickCount : Int) (shuffledCandidates : List String) :
    (randomPick pickCount shuffledCandidates).length =
      min pickCount.toNat shuffledCandidates.length := by
  rw [randomPick_eq]
  simp

theorem mem_randomPick (pickCount : Int) (shuffledCandidates : List String)
    (x : String) (hx : x ∈ randomPick pickCount shuffledCandidates) :
    x ∈ shuffledCandidates := by
  rw [randomPick_eq] at hx
  exact List.mem_reverse.mp (List.mem_of_mem_take hx)

theorem count_randomPick (pickCount : Int) (shuffledCandidates : List String)
    (x : String) :
    (randomPick pickCount shuffledCandidates).count x ≤ shuffledCandidates.count x := by
  rw [randomPick_eq]
  calc (shuffledCandidates.reverse.take pickCount.toNat).count x
      ≤ shuffledCandidates.reverse.count x :=
        (List.take_sublist _ _).count_le x
    _ = shuffledCandidates.count x := List.count_reverse x shuffledCandidates

/-- The mentor step of the random-pick `getReviewers`: a truthy mentor is
requested unless already among the initial reviewers. -/
def randomMentorPicked (cfg : Config) (author : String)
    (initialReviewers : List String) : List String :=
  match cfg.mentorLookup author with
  | some mentor =>
      if mentor ≠ "" then
        (if initialReviewers.contains mentor then [] else [mentor])
      else []
  | none => []

/-- The team step of the random-pick `getReviewers`: pick
`targetCount - reviewers.length` members of the team of the author, minus
the author, the reviewers so far and the initial reviewers, after a
shuffle. -/
def randomTeamPicked (cfg : Config) (shuffleTeam : List String → List String)
    (author : String) (initialReviewers : List String) (count : Int)
    (team : List String) : List String :=
  randomPick (count - (randomMentorPicked cfg author initialReviewers).length)
    (shuffleTeam (ldDifference (team.filter (fun member => member ≠ author))
      [randomMentorPicked cfg author initialReviewers, initialReviewers]))

/-- The reviewers collected after the mentor and team steps. -/
def randomFirstTwo (cfg : Config) (shuffleTeam : List String → List String)
    (author : String) (initialReviewers : List String) (count : Int)
    (team : List String) : List String :=
  randomMentorPicked cfg author initialReviewers ++
    randomTeamPicked cfg shuffleTeam author initialReviewers count team

/-- The mentorship-group step of the random-pick `getReviewers`. -/
def randomGroupPicked (cfg : Config) (shuffleTeam shuffleGroup : List String → List String)
    (author : String) (initialReviewers : List String) (count : Int)
    (team group : List String) : List String :=
  randomPick
    (count - (randomFirstTwo cfg shuffleTeam author initialReviewers count team).length)
    (shuffleGroup (ldDifference (group.filter (fun member => member ≠ author))
      [randomFirstTwo cfg shuffleTeam author initialReviewers count team, initialReviewers]))

/-- Embedding of `getReviewers(username, initialReviewers)` of the
random-pick variant (`src/src/index.js`).  `Object.values(config.teams)
.find(...)` yields `undefined` when no team contains the author, and the
subsequent `.filter` call then throws a TypeError; likewise for the
mentorship groups.  `shuffleTeam` and `shuffleGroup` model the two
`_.shuffle` calls hidden inside `randomPick`.  The mentorship-group step
runs only under the literal `reviewers.length < 2` test of the source. -/
def getReviewersRandom (cfg : Config) (shuffleTeam shuffleGroup : List String → List String)
    (author : String) (initialReviewers : List String) (count : Int) :
    Except JsError (List String) :=
  match cfg.teams.find? (fun teamMembers => teamMembers.contains author) with
  | none => Except.error JsError.typeError
  | some team =>
      let reviewers1 := randomFirstTwo cfg shuffleTeam author initialReviewers count team
      if reviewers1.length < 2 then
        match cfg.mentorshipGroups.find? (fun group => group.contains author) with
        | none => Except.error JsError.typeError
        | some group =>
            Except.ok (reviewers1 ++
              randomGroupPicked cfg shuffleTeam shuffleGroup author initialReviewers count
                team group)
      else Except.ok reviewers1

/-!
## Rate limiter (`createRateLimiter` of `src/unnamed/part_000`)

`run(fn)` pushes a task onto a queue and bumps a counter; a `setInterval`
tick shifts one task off the head of the queue and starts it, wiring the
fulfilment and rejection of `fn()` to the deferred result that `run`
returned; the `finally` handler decrements the counter and clears the
interval once it reaches zero.  The state machine below models one tick as
dequeuing the head task and delivering its own outcome (settlement, which
in the source is asynchronous, is collapsed into the tick that starts the
task; the claim under study concerns dequeue order and outcome delivery,
both of which are unaffected by the collapse).  `started` records the task
ids in start order and `settled` the outcome delivered to each deferred
result.
-/

structure RLTask (ε α : Type) where
  id : Nat
  outcome : Except ε α

structure RLState (ε α : Type) where
  queue : List (RLTask ε α)
  counter : Nat
  running : Bool
  started : List Nat
  settled : List (Nat × Except ε α)

/-- The fresh limiter created by `createRateLimiter`. -/
def RLState.init {ε α : Type} : RLState ε α :=
  ⟨[], 0, false, [], []⟩

/-- `rateLimiter.run(fn)`: push the task, bump the counter, ensure the
interval is ticking. -/
def RLState.enqueue {ε α : Type} (s : RLState ε α) (t : RLTask ε α) : RLState ε α :=
  { s with queue := s.queue ++ [t], counter := s.counter + 1, running := true }

/-- One `setInterval` tick: shift the head task (if any), start it and
deliver its own outcome to its deferred result; the `finally` handler
decrements the counter and stops the ticking at zero. -/
def RLState.tick {ε α : Type} (s : RLState ε α) : RLState ε α :=
  match s.queue with
  | [] => s
  | task :: rest =>
      let newCounter := s.counter - 1
      { queue := rest
        counter := newCounter
        running := if newCounter = 0 then false else s.running
        started := s.started ++ [task.id]
        settled := s.settled ++ [(task.id, task.outcome)] }

/-- Iterated ticks. -/
def RLState.tickN {ε α : Type} (s : RLState ε α) : Nat → RLState ε α
  | 0 => s
  | n + 1 => (s.tick).tickN n

/-- The state after enqueuing a list of operations into a fresh limiter. -/
def enqueueAll {ε α : Type} (ts : List (RLTask ε α)) : RLState ε α :=
  ts.foldl RLState.enqueue RLState.init

/-!
## Orchestrator (`run` of `src/unnamed/part_000`)

The pull-request payload and the results of the network calls are explicit
parameters.  Reading `context.payload.pull_request.draft` and building the
`pullRequest` object happen BEFORE the `try` block, so a missing
`pull_request` in the payload throws a TypeError that the `catch` never
sees; every stage inside the `try` that fails is caught and reported
through `core.setFailed`.
-/

structure PullRequestPayload where
  number : Nat
  draft : Bool
  authorLogin : String
deriving Repr

structure Context where
  pull_request : Option PullRequestPayload
deriving Repr

inductive RunOutcome where
  | skipped
  | noop
  | submitted (reviewers : List String)
  | failed (e : JsError)
  | uncaught (e : JsError)
deriving DecidableEq, Repr

/-- Embedding of the top-level `run()` of the load-ranked variant.
`listReviews` gives the review author logins, `listRequested` the currently
requested reviewers, `select` stands for `getReviewers` and `submit` for
`octokit.pulls.requestReviewers`; each may fail with a `JsError`. -/
def runRanked (ctx : Context) (count : Int)
    (listReviews listRequested : Except JsError (List String))
    (select : String → List String → Except JsError (List String))
    (submit : List String → Except JsError Unit) : RunOutcome :=
  match ctx.pull_request with
  | none => RunOutcome.uncaught JsError.typeError
  | some pr =>
      if pr.draft then RunOutcome.skipped
      else
        match listReviews with
        | Except.error e => RunOutcome.failed e
        | Except.ok reviewLogins =>
            let reviewedUsers := (ldUniq reviewLogins).filter (fun u => u ≠ pr.authorLogin)
            match listRequested with
            | Except.error e => RunOutcome.failed e
            | Except.ok requestedUsers =>
                let alreadyInvolvedUsers := reviewedUsers ++ requestedUsers
                if (alreadyInvolvedUsers.length : Int) ≥ count then RunOutcome.noop
                else
                  match select pr.authorLogin alreadyInvolvedUsers with
                  | Except.error e => RunOutcome.failed e
                  | Except.ok reviewers =>
                      match submit reviewers with
                      | Except.error e => RunOutcome.failed e
                      | Except.ok _ => RunOutcome.submitted reviewers

/-!
## Supporting lemmas
-/

theorem mem_ldDifference {l : List String} {excls : List (List String)} {x : String} :
    x ∈ ldDifference l excls ↔ x ∈ l ∧ ∀ e ∈ excls, x ∉ e := by
  simp [ldDifference, List.mem_filter]

theorem mem_ldDifferenceOpt {o : Option (List String)} {excls : List (List String)}
    {x : String} (hx : x ∈ ldDifferenceOpt o excls) :
    ∃ l, o = some l ∧ x ∈ l ∧ ∀ e ∈ excls, x ∉ e := by
  cases o with
  | none => simp [ldDifferenceOpt] at hx
  | some l => exact ⟨l, rfl, mem_ldDifference.mp hx⟩

theorem mem_ldTake {l : List String} {n : Int} {x : String} (hx : x ∈ ldTake l n) :
    x ∈ l :=
  List.mem_of_mem_take hx

theorem length_ldTake (l : List String) (n : Int) :
    (ldTake l n).length = min n.toNat l.length := by
  simp [ldTake]

theorem mem_getUsersSortedByReviewLoading {loading : String → ℚ} {l : List String}
    {x : String} :
    x ∈ getUsersSortedByReviewLoading loading l ↔ x ∈ l :=
  mem_ldSortBy loading x l

theorem mem_randomMentorPicked {cfg : Config} {author x : String}
    {initialReviewers : List String}
    (hx : x ∈ randomMentorPicked cfg author initialReviewers) :
    cfg.mentorLookup author = some x ∧ x ∉ initialReviewers := by
  unfold randomMentorPicked at hx
  cases hm : cfg.mentorLookup author with
  | none => rw [hm] at hx; simp at hx
  | some mentor =>
      rw [hm] at hx
      by_cases hne : mentor = ""
      · simp [hne] at hx
      · simp [hne] at hx
        rcases hx with ⟨hni, rfl⟩
        exact ⟨rfl, hni⟩

theorem mem_rankedTeamPool {cfg : Config} {author x : String}
    {initialReviewers : List String}
    (hx : x ∈ rankedTeamPool cfg author initialReviewers) :
    x ∉ initialReviewers ∧ x ≠ author ∧ x ∉ (cfg.mentorLookup author).toList := by
  rcases mem_ldDifferenceOpt hx with ⟨l, _, _, hexcl⟩
  refine ⟨hexcl _ (by simp), ?_, ?_⟩
  · have := hexcl ([author] ++ (cfg.mentorLookup author).toList) (by simp)
    intro h
    exact this (by simp [h])
  · have := hexcl ([author] ++ (cfg.mentorLookup author).toList) (by simp)
    intro h
    exact this (by simp [h])

theorem mem_rankedGroupPool {cfg : Config} {loading : String → ℚ} {author x : String}
    {initialReviewers : List String} {count : Int}
    (hx : x ∈ rankedGroupPool cfg loading author initialReviewers count) :
    x ∉ initialReviewers ∧
      x ∉ rankedFirstTaken cfg loading author initialReviewers count ∧ x ≠ author := by
  rcases mem_ldDifferenceOpt hx with ⟨l, _, _, hexcl⟩
  refine ⟨hexcl _ (by simp), hexcl _ (by simp), ?_⟩
  have := hexcl [author] (by simp)
  intro h
  exact this (by simp [h])

theorem mem_rankedFirstBatch {cfg : Config} {loading : String → ℚ} {author x : String}
    {initialReviewers : List String}
    (hx : x ∈ rankedFirstBatch cfg loading author initialReviewers) :
    cfg.mentorLookup author = some x ∨ x ∈ rankedTeamPool cfg author initialReviewers := by
  unfold rankedFirstBatch at hx
  by_cases ht : jsTruthy (cfg.mentorLookup author)
  · rw [if_pos ht] at hx
    rcases List.mem_append.mp hx with hm | hteam
    · left
      cases hml : cfg.mentorLookup author with
      | none => rw [hml] at hm; simp at hm
      | some mentor =>
          rw [hml] at hm
          simp only [Option.toList_some, List.mem_singleton] at hm
          rw [hm]
    · right
      exact mem_getUsersSortedByReviewLoading.mp hteam
  · rw [if_neg ht] at hx
    right
    exact mem_getUsersSortedByReviewLoading.mp hx

theorem mem_getReviewersRanked {cfg : Config} {loading : String → ℚ} {author x : String}
    {initialReviewers : List String} {count : Int}
    (hx : x ∈ getReviewersRanked cfg loading author initialReviewers count) :
    cfg.mentorLookup author = some x ∨ (x ∉ initialReviewers ∧ x ≠ author) := by
  rcases List.mem_append.mp hx with hfirst | hgroup
  · rcases mem_rankedFirstBatch (mem_ldTake hfirst) with hm | hpool
    · exact Or.inl hm
    · rcases mem_rankedTeamPool hpool with ⟨h1, h2, _⟩
      exact Or.inr ⟨h1, h2⟩
  · unfold rankedGroupTaken at hgroup
    by_cases hc : ((rankedFirstTaken cfg loading author initialReviewers count).length : Int) <
        rankedTargetCount initialReviewers count
    · rw [if_pos hc] at hgroup
      have hpool := mem_getUsersSortedByReviewLoading.mp (mem_ldTake hgroup)
      rcases mem_rankedGroupPool hpool with ⟨h1, _, h3⟩
      exact Or.inr ⟨h1, h3⟩
    · rw [if_neg hc] at hgroup
      simp at hgroup

theorem mem_randomTeamPicked {cfg : Config} {shuffleTeam : List String → List String}
    {author x : String} {initialReviewers : List String} {count : Int}
    {team : List String}
    (hT : ∀ l, (shuffleTeam l).Perm l)
    (hx : x ∈ randomTeamPicked cfg shuffleTeam author initialReviewers count team) :
    x ∈ team ∧ x ≠ author ∧ x ∉ initialReviewers := by
  have hmem := (hT _).mem_iff.mp (mem_randomPick _ _ _ hx)
  rcases mem_ldDifference.mp hmem with ⟨hfil, hexcl⟩
  rcases List.mem_filter.mp hfil with ⟨hteam, hne⟩
  exact ⟨hteam, by simpa using hne, hexcl _ (by simp)⟩

theorem mem_randomGroupPicked {cfg : Config}
    {shuffleTeam shuffleGroup : List String → List String}
    {author x : String} {initialReviewers : List String} {count : Int}
    {team group : List String}
    (hG : ∀ l, (shuffleGroup l).Perm l)
    (hx : x ∈ randomGroupPicked cfg shuffleTeam shuffleGroup author initialReviewers count
      team group) :
    x ∈ group ∧ x ≠ author ∧ x ∉ initialReviewers := by
  have hmem := (hG _).mem_iff.mp (mem_randomPick _ _ _ hx)
  rcases mem_ldDifference.mp hmem with ⟨hfil, hexcl⟩
  rcases List.mem_filter.mp hfil with ⟨hgroup, hne⟩
  exact ⟨hgroup, by simpa using hne, hexcl _ (by simp)⟩

theorem mem_randomFirstTwo {cfg : Config} {shuffleTeam : List String → List String}
    {author x : String} {initialReviewers : List String} {count : Int}
    {team : List String}
    (hT : ∀ l, (shuffleTeam l).Perm l)
    (hx : x ∈ randomFirstTwo cfg shuffleTeam author initialReviewers count team) :
    (cfg.mentorLookup author = some x ∧ x ∉ initialReviewers) ∨
      (x ∉ initialReviewers ∧ x ≠ author) := by
  rcases List.mem_append.mp hx with hm | ht
  · exact Or.inl (mem_randomMentorPicked hm)
  · rcases mem_randomTeamPicked hT ht with ⟨_, h2, h3⟩
    exact Or.inr ⟨h3, h2⟩

theorem mem_getReviewersRandom {cfg : Config}
    {shuffleTeam shuffleGroup : List String → List String}
    {author : String} {initialReviewers : List String} {count : Int} {rs : List String}
    (hT : ∀ l, (shuffleTeam l).Perm l) (hG : ∀ l, (shuffleGroup l).Perm l)
    (hok : getReviewersRandom cfg shuffleTeam shuffleGroup author initialReviewers count =
      Except.ok rs)
    {x : String} (hx : x ∈ rs) :
    (cfg.mentorLookup author = some x ∧ x ∉ initialReviewers) ∨
      (x ∉ initialReviewers ∧ x ≠ author) := by
  unfold getReviewersRandom at hok
  cases hfind : cfg.teams.find? (fun teamMembers => teamMembers.contains author) with
  | none => rw [hfind] at hok; exact absurd hok (by simp)
  | some team =>
      rw [hfind] at hok
      dsimp only at hok
      by_cases hlen :
          (randomFirstTwo cfg shuffleTeam author initialReviewers count team).length < 2
      · rw [if_pos hlen] at hok
        cases hg : cfg.mentorshipGroups.find? (fun group => group.contains author) with
        | none => rw [hg] at hok; exact absurd hok (by simp)
        | some group =>
            rw [hg] at hok
            have hrs : rs = randomFirstTwo cfg shuffleTeam author initialReviewers count team ++
                randomGroupPicked cfg shuffleTeam shuffleGroup author initialReviewers count
                  team group := by
              injection hok with h
              exact h.symm
            rw [hrs] at hx
            rcases List.mem_append.mp hx with hfirst | hgroup
            · exact mem_randomFirstTwo hT hfirst
            · rcases mem_randomGroupPicked hG hgroup with ⟨_, h2, h3⟩
              exact Or.inr ⟨h3, h2⟩
      · rw [if_neg hlen] at hok
        have hrs : rs = randomFirstTwo cfg shuffleTeam author initialReviewers count team := by
          injection hok with h
          exact h.symm
        rw [hrs] at hx
        exact mem_randomFirstTwo hT hx

/-!
## Claim theorems
-/

/-- Claim C1, counterexample: in the load-ranked variant, with author `a`,
mentor `m`, target count 2 and `m` already an initial reviewer, the
selection is `[m]` — the mentor-tier candidate is selected even though it
belongs to the already-involved set, so the selection is not disjoint from
`initialReviewers`. -/
theorem c1_mentor_already_involved_cex :
    getReviewersRanked ⟨[["a"]], [], [("a", "m")]⟩ (fun _ => 0) "a" ["m"] 2 = ["m"] ∧
      "m" ∈ (["m"] : List String) := by
  exact ⟨by decide, by decide⟩

/-- Claim C1 (amended): in the random-pick variant the selection is fully
disjoint from the initial reviewers; in the load-ranked variant every
selected username that is already involved can only be the value of the
mentor lookup for the author — all non-mentor tiers exclude the
already-involved set, and the random-pick variant also excludes an
already-involved mentor. -/
theorem c1_no_already_involved_amended :
    (∀ (cfg : Config) (shuffleTeam shuffleGroup : List String → List String)
        (author : String) (initialReviewers : List String) (count : Int)
        (rs : List String),
      (∀ l, (shuffleTeam l).Perm l) → (∀ l, (shuffleGroup l).Perm l) →
      getReviewersRandom cfg shuffleTeam shuffleGroup author initialReviewers count =
        Except.ok rs →
      ∀ x ∈ rs, x ∉ initialReviewers) ∧
    (∀ (cfg : Config) (loading : String → ℚ) (author : String)
        (initialReviewers : List String) (count : Int) (x : String),
      x ∈ getReviewersRanked cfg loading author initialReviewers count →
      x ∈ initialReviewers →
      cfg.mentorLookup author = some x) := by
  constructor
  · intro cfg sT sG author inv count rs hT hG hok x hx
    rcases mem_getReviewersRandom hT hG hok hx with ⟨_, h⟩ | ⟨h, _⟩ <;> exact h
  · intro cfg loading author inv count x hx hinv
    rcases mem_getReviewersRanked hx with hm | ⟨hni, _⟩
    · exact hm
    · exact absurd hinv hni

/-- Witness for C1: at the counterexample input, the only already-involved
selected reviewer is indeed the mentor of the author. -/
theorem c1_no_already_involved_witness :
    ("m" ∈ getReviewersRanked ⟨[["a"]], [], [("a", "m")]⟩ (fun _ => 0) "a" ["m"] 2) ∧
      ("m" ∈ (["m"] : List String)) ∧
      Config.mentorLookup ⟨[["a"]], [], [("a", "m")]⟩ "a" = some "m" :=
  ⟨by decide, by decide,
    c1_no_already_involved_amended.2 ⟨[["a"]], [], [("a", "m")]⟩ (fun _ => 0) "a" ["m"] 2 "m"
      (by decide) (by decide)⟩

/-- Claim C2, counterexample: in the random-pick variant, an author who
belongs to no team makes `Object.values(config.teams).find(...)` return
`undefined`, and the `.filter` call on it throws a TypeError — the function
raises instead of returning an empty selection. -/
theorem c2_missing_team_typeerror_cex :
    getReviewersRandom ⟨[], [], []⟩ id id "a" [] 2 = Except.error JsError.typeError := by
  rfl

/-- Claim C2 (amended): in the load-ranked variant, an author with no team,
no mentorship group and no mentor degrades to the empty selection without
an error; in the random-pick variant the same situation raises a TypeError
(which the orchestrator then reports as a run failure). -/
theorem c2_degrade_to_empty_amended :
    (∀ (cfg : Config) (loading : String → ℚ) (author : String)
        (initialReviewers : List String) (count : Int),
      cfg.teams.find? (fun teamMembers => teamMembers.contains author) = none →
      cfg.mentorshipGroups.find? (fun group => group.contains author) = none →
      cfg.mentorLookup author = none →
      getReviewersRanked cfg loading author initialReviewers count = []) ∧
    (∀ (cfg : Config) (shuffleTeam shuffleGroup : List String → List String)
        (author : String) (initialReviewers : List String) (count : Int),
      cfg.teams.find? (fun teamMembers => teamMembers.contains author) = none →
      getReviewersRandom cfg shuffleTeam shuffleGroup author initialReviewers count =
        Except.error JsError.typeError) := by
  constructor
  · intro cfg loading author inv count hteam hgroup hmentor
    unfold getReviewersRanked rankedFirstTaken rankedFirstBatch rankedGroupTaken
      rankedGroupPool rankedTeamPool
    rw [hteam, hgroup, hmentor]
    simp [jsTruthy, ldDifferenceOpt, getUsersSortedByReviewLoading, ldSortBy, ldTake]
  · intro cfg sT sG author inv count hteam
    unfold getReviewersRandom
    rw [hteam]

/-- Witness for C2: a configuration whose single team and single group do
not contain the author `a` and whose mentor map has no entry for `a` yields
the empty selection in the load-ranked variant. -/
theorem c2_degrade_to_empty_witness :
    ((⟨[], [["b"]], [("b", "c")]⟩ : Config).teams.find?
        (fun teamMembers => teamMembers.contains "a") = none) ∧
      getReviewersRanked ⟨[], [["b"]], [("b", "c")]⟩ (fun _ => 0) "a" [] 2 = [] :=
  ⟨by decide,
    c2_degrade_to_empty_amended.1 ⟨[], [["b"]], [("b", "c")]⟩ (fun _ => 0) "a" [] 2
      (by decide) (by decide) (by decide)⟩

/-- Claim C3, counterexample: with a mentor map that assigns the author
`a` to itself, the load-ranked selection contains the author — the mentor
tier performs no self-exclusion. -/
theorem c3_self_mentor_cex :
    getReviewersRanked ⟨[["a"]], [], [("a", "a")]⟩ (fun _ => 0) "a" [] 2 = ["a"] ∧
      "a" ∈ getReviewersRanked ⟨[["a"]], [], [("a", "a")]⟩ (fun _ => 0) "a" [] 2 := by
  exact ⟨by decide, by decide⟩

/-- Claim C3 (amended): provided the mentor map does not map the author to
itself, neither variant ever selects the author: the team and
mentorship-group tiers exclude the author unconditionally, and the mentor
tier can only produce the mentor-lookup value. -/
theorem c3_no_self_review_amended :
    (∀ (cfg : Config) (loading : String → ℚ) (author : String)
        (initialReviewers : List String) (count : Int),
      cfg.mentorLookup author ≠ some author →
      author ∉ getReviewersRanked cfg loading author initialReviewers count) ∧
    (∀ (cfg : Config) (shuffleTeam shuffleGroup : List String → List String)
        (author : String) (initialReviewers : List String) (count : Int)
        (rs : List String),
      (∀ l, (shuffleTeam l).Perm l) → (∀ l, (shuffleGroup l).Perm l) →
      cfg.mentorLookup author ≠ some author →
      getReviewersRandom cfg shuffleTeam shuffleGroup author initialReviewers count =
        Except.ok rs →
      author ∉ rs) := by
  constructor
  · intro cfg loading author inv count hm hx
    rcases mem_getReviewersRanked hx with h | ⟨_, h⟩
    · exact hm h
    · exact h rfl
  · intro cfg sT sG author inv count rs hT hG hm hok hx
    rcases mem_getReviewersRandom hT hG hok hx with ⟨h, _⟩ | ⟨_, h⟩
    · exact hm h
    · exact h rfl

/-- Witness for C3: with a genuine mentor `m ≠ a`, the author `a` is not
among the selected reviewers. -/
theorem c3_no_self_review_witness :
    (Config.mentorLookup ⟨[["a", "t"]], [], [("a", "m")]⟩ "a" ≠ some "a") ∧
      "a" ∉ getReviewersRanked ⟨[["a", "t"]], [], [("a", "m")]⟩ (fun _ => 0) "a" [] 2 :=
  ⟨by decide,
    c3_no_self_review_amended.1 ⟨[["a", "t"]], [], [("a", "m")]⟩ (fun _ => 0) "a" [] 2
      (by decide)⟩

theorem length_randomMentorPicked (cfg : Config) (author : String)
    (initialReviewers : List String) :
    (randomMentorPicked cfg author initialReviewers).length ≤ 1 := by
  unfold randomMentorPicked
  cases hm : cfg.mentorLookup author with
  | none => simp
  | some mentor =>
      by_cases h1 : mentor = ""
      · simp [h1]
      · by_cases h2 : mentor ∈ initialReviewers <;> simp [h1, h2]

/-- Claim C4, counterexample: the random-pick variant does not subtract the
already-involved count from the configured target.  With target count 2
and one already-involved user `x`, the author `a` gets mentor `m` plus team
member `t`: two new reviewers, exceeding `targetCount − |alreadyInvolved|
= 1`. -/
theorem c4_bound_cex :
    getReviewersRandom ⟨[["a", "t"]], [["a", "g"]], [("a", "m")]⟩ id id "a" ["x"] 2 =
        Except.ok ["m", "t"] ∧
      ¬ ((["m", "t"] : List String).length ≤ 2 - (["x"] : List String).length) := by
  constructor
  · unfold getReviewersRandom randomGroupPicked randomFirstTwo randomTeamPicked
      randomMentorPicked
    simp only [randomPick_eq]
    rfl
  · decide

/-- Claim C4 (amended): in the load-ranked variant the selection length is
at most `targetCount − |alreadyInvolved|` and hence at most `targetCount`;
in the random-pick variant only the bound `|selection| ≤ targetCount`
holds (for the target counts `≥ 1` at which the orchestrator invokes the
selection), because that variant never subtracts the already-involved
count. -/
theorem c4_cardinality_bound_amended :
    (∀ (cfg : Config) (loading : String → ℚ) (author : String)
        (initialReviewers : List String) (count : Int),
      (getReviewersRanked cfg loading author initialReviewers count).length ≤
          (count - initialReviewers.length).toNat ∧
        (getReviewersRanked cfg loading author initialReviewers count).length ≤
          count.toNat) ∧
    (∀ (cfg : Config) (shuffleTeam shuffleGroup : List String → List String)
        (author : String) (initialReviewers : List String) (count : Int)
        (rs : List String),
      1 ≤ count →
      getReviewersRandom cfg shuffleTeam shuffleGroup author initialReviewers count =
        Except.ok rs →
      rs.length ≤ count.toNat) := by
  constructor
  · intro cfg loading author inv count
    have h1 : (rankedFirstTaken cfg loading author inv count).length ≤
        (rankedTargetCount inv count).toNat := by
      rw [rankedFirstTaken, length_ldTake]
      exact Nat.min_le_left _ _
    have h2 : (rankedGroupTaken cfg loading author inv count).length ≤
        (rankedTargetCount inv count -
          (rankedFirstTaken cfg loading author inv count).length).toNat := by
      unfold rankedGroupTaken
      by_cases hc : ((rankedFirstTaken cfg loading author inv count).length : Int) <
          rankedTargetCount inv count
      · rw [if_pos hc, length_ldTake]
        exact Nat.min_le_left _ _
      · rw [if_neg hc]
        simp
    have h3 : (getReviewersRanked cfg loading author inv count).length =
        (rankedFirstTaken cfg loading author inv count).length +
          (rankedGroupTaken cfg loading author inv count).length := by
      rw [getReviewersRanked, List.length_append]
    rw [rankedTargetCount] at h1 h2
    constructor <;> omega
  · intro cfg sT sG author inv count rs hcount hok
    unfold getReviewersRandom at hok
    cases hfind : cfg.teams.find? (fun teamMembers => teamMembers.contains author) with
    | none => rw [hfind] at hok; exact absurd hok (by simp)
    | some team =>
        rw [hfind] at hok
        dsimp only at hok
        have hM := length_randomMentorPicked cfg author inv
        have hT2 : (randomTeamPicked cfg sT author inv count team).length ≤
            (count - (randomMentorPicked cfg author inv).length).toNat := by
          unfold randomTeamPicked
          rw [length_randomPick]
          exact Nat.min_le_left _ _
        have hF : (randomFirstTwo cfg sT author inv count team).length ≤ count.toNat := by
          rw [randomFirstTwo, List.length_append]
          omega
        by_cases hlen : (randomFirstTwo cfg sT author inv count team).length < 2
        · rw [if_pos hlen] at hok
          cases hg : cfg.mentorshipGroups.find? (fun group => group.contains author) with
          | none => rw [hg] at hok; exact absurd hok (by simp)
          | some group =>
              rw [hg] at hok
              injection hok with h
              subst h
              have hG2 : (randomGroupPicked cfg sT sG author inv count team group).length ≤
                  (count - (randomFirstTwo cfg sT author inv count team).length).toNat := by
                unfold randomGroupPicked
                rw [length_randomPick]
                exact Nat.min_le_left _ _
              rw [List.length_append]
              omega
        · rw [if_neg hlen] at hok
          injection hok with h
          subst h
          exact hF

/-- Witness for C4: a two-member team with target count 2 and one
already-involved user yields a single new reviewer in the load-ranked
variant, within both bounds; the random-pick variant stays within the
target count. -/
theorem c4_cardinality_bound_witness :
    ((getReviewersRanked ⟨[["a", "t"]], [], [("a", "m")]⟩ (fun _ => 0) "a" ["x"] 2).length ≤
        ((2 : Int) - (["x"] : List String).length).toNat) ∧
      (1 : Int) ≤ 2 :=
  ⟨(c4_cardinality_bound_amended.1 ⟨[["a", "t"]], [], [("a", "m")]⟩ (fun _ => 0) "a"
      ["x"] 2).1,
    by decide⟩

theorem rankedFirstTaken_cons_of_mentor {cfg : Config} (loading : String → ℚ)
    {author m : String} {initialReviewers : List String} {count : Int}
    (hm : cfg.mentorLookup author = some m) (hne : m ≠ "")
    (hc : 1 ≤ rankedTargetCount initialReviewers count) :
    ∃ l, rankedFirstTaken cfg loading author initialReviewers count = m :: l := by
  have hbatch : rankedFirstBatch cfg loading author initialReviewers =
      m :: getUsersSortedByReviewLoading loading
        (rankedTeamPool cfg author initialReviewers) := by
    unfold rankedFirstBatch
    rw [hm]
    have ht : jsTruthy (some m) = true := by simp [jsTruthy, hne]
    rw [if_pos ht]
    rfl
  obtain ⟨k, hk⟩ : ∃ k, (rankedTargetCount initialReviewers count).toNat = k + 1 := by
    refine ⟨(rankedTargetCount initialReviewers count).toNat - 1, ?_⟩
    omega
  refine ⟨(getUsersSortedByReviewLoading loading
    (rankedTeamPool cfg author initialReviewers)).take k, ?_⟩
  rw [rankedFirstTaken, hbatch, ldTake, hk, List.take_succ_cons]

theorem length_getUsersSortedByReviewLoading (loading : String → ℚ) (l : List String) :
    (getUsersSortedByReviewLoading loading l).length = l.length :=
  length_ldSortBy loading l

/-- Claim C5, counterexample: the random-pick variant gates the
mentorship-group tier with the literal test `reviewers.length < 2` instead
of comparing against the target count.  With target count 3, mentor `m`
and one eligible team member `t`, only two reviewers are collected — fewer
than the target — yet the eligible group member `g` is not consulted. -/
theorem c5_group_tier_cex :
    getReviewersRandom ⟨[["a", "t"]], [["a", "g"]], [("a", "m")]⟩ id id "a" [] 3 =
        Except.ok ["m", "t"] ∧
      ((["m", "t"] : List String).length < 3) ∧
      "g" ∈ ldDifference (["a", "g"].filter (fun member => member ≠ "a"))
        [["m", "t"], ([] : List String)] ∧
      "g" ∉ (["m", "t"] : List String) := by
  refine ⟨?_, by decide, by decide, by decide⟩
  unfold getReviewersRandom randomGroupPicked randomFirstTwo randomTeamPicked
    randomMentorPicked
  simp only [randomPick_eq]
  rfl

/-- Claim C5 (amended): in the load-ranked variant tier precedence is
strict and capacity-driven — the selection is the mentor-plus-team batch
followed by the group contribution, a truthy mentor heads the selection
whenever at least one slot is open, the group tier contributes exactly
when the first batch left the target unmet and its pool is non-empty, and
its contribution is drawn from the group pool.  In the random-pick variant
the group tier is instead gated by the literal `reviewers.length < 2`: with
two or more reviewers collected the group is never consulted, whatever the
target count. -/
theorem c5_tier_precedence_amended :
    (∀ (cfg : Config) (loading : String → ℚ) (author : String)
        (initialReviewers : List String) (count : Int),
      getReviewersRanked cfg loading author initialReviewers count =
        rankedFirstTaken cfg loading author initialReviewers count ++
          rankedGroupTaken cfg loading author initialReviewers count) ∧
    (∀ (cfg : Config) (loading : String → ℚ) (author m : String)
        (initialReviewers : List String) (count : Int),
      cfg.mentorLookup author = some m → m ≠ "" →
      1 ≤ rankedTargetCount initialReviewers count →
      (getReviewersRanked cfg loading author initialReviewers count).head? = some m) ∧
    (∀ (cfg : Config) (loading : String → ℚ) (author : String)
        (initialReviewers : List String) (count : Int),
      rankedGroupTaken cfg loading author initialReviewers count ≠ [] ↔
        (((rankedFirstTaken cfg loading author initialReviewers count).length : Int) <
            rankedTargetCount initialReviewers count ∧
          rankedGroupPool cfg loading author initialReviewers count ≠ [])) ∧
    (∀ (cfg : Config) (loading : String → ℚ) (author x : String)
        (initialReviewers : List String) (count : Int),
      x ∈ rankedGroupTaken cfg loading author initialReviewers count →
      x ∈ rankedGroupPool cfg loading author initialReviewers count) ∧
    (∀ (cfg : Config) (shuffleTeam shuffleGroup : List String → List String)
        (author : String) (initialReviewers : List String) (count : Int)
        (team : List String),
      cfg.teams.find? (fun teamMembers => teamMembers.contains author) = some team →
      2 ≤ (randomFirstTwo cfg shuffleTeam author initialReviewers count team).length →
      getReviewersRandom cfg shuffleTeam shuffleGroup author initialReviewers count =
        Except.ok (randomFirstTwo cfg shuffleTeam author initialReviewers count team)) := by
  refine ⟨?_, ?_, ?_, ?_, ?_⟩
  · intro cfg loading author inv count
    rfl
  · intro cfg loading author m inv count hm hne hc
    obtain ⟨l, hl⟩ := rankedFirstTaken_cons_of_mentor loading hm hne hc
    rw [getReviewersRanked, hl]
    rfl
  · intro cfg loading author inv count
    unfold rankedGroupTaken
    by_cases hc : ((rankedFirstTaken cfg loading author inv count).length : Int) <
        rankedTargetCount inv count
    · rw [if_pos hc]
      constructor
      · intro hne
        refine ⟨hc, ?_⟩
        intro hpool
        apply hne
        rw [hpool]
        simp [getUsersSortedByReviewLoading, ldSortBy, ldTake]
      · rintro ⟨-, hpool⟩
        intro heq
        apply hpool
        rw [ldTake] at heq
        rcases List.take_eq_nil_iff.mp heq with h | h
        · omega
        · have hlen := congrArg List.length h
          rw [length_getUsersSortedByReviewLoading] at hlen
          exact List.length_eq_zero.mp hlen
    · rw [if_neg hc]
      simp [hc]
  · intro cfg loading author x inv count hx
    unfold rankedGroupTaken at hx
    by_cases hc : ((rankedFirstTaken cfg loading author inv count).length : Int) <
        rankedTargetCount inv count
    · rw [if_pos hc] at hx
      exact mem_getUsersSortedByReviewLoading.mp (mem_ldTake hx)
    · rw [if_neg hc] at hx
      simp at hx
  · intro cfg sT sG author inv count team hfind hlen
    unfold getReviewersRandom
    rw [hfind]
    dsimp only
    rw [if_neg (by omega)]

/-- Witness for C5: with mentor `m`, an empty team pool and target count 2,
the mentor heads the selection, and the group tier is consulted because the
first batch left the target unmet. -/
theorem c5_tier_precedence_witness :
    (Config.mentorLookup ⟨[["a"]], [["a", "g"]], [("a", "m")]⟩ "a" = some "m") ∧
      (getReviewersRanked ⟨[["a"]], [["a", "g"]], [("a", "m")]⟩ (fun _ => 0) "a" [] 2).head? =
        some "m" :=
  ⟨by decide,
    c5_tier_precedence_amended.2.1 ⟨[["a"]], [["a", "g"]], [("a", "m")]⟩ (fun _ => 0)
      "a" "m" [] 2 (by decide) (by decide) (by decide)⟩

/-- Claim C6: for a reviewer with mentees the load score is
`rawRequested + rawReviewed − 0.5·(menteeRequested + menteeReviewed)` and
all four sub-queries are issued; for a reviewer without mentees the score
is exactly `rawRequested + rawReviewed` and only the two raw sub-queries
are issued — the mentee sub-queries are skipped entirely. -/
theorem c6_load_discount (results : SearchQuery → ℚ) (menteesList : List String) :
    (menteesList = [] →
      getReviewLoadingOfUser results menteesList =
        (results .requested + results .reviewed,
          [SearchQuery.requested, SearchQuery.reviewed])) ∧
    (menteesList ≠ [] →
      (getReviewLoadingOfUser results menteesList).1 =
          results .requested + results .reviewed -
            menteePullWeight * (results .menteeRequested + results .menteeReviewed) ∧
        (getReviewLoadingOfUser results menteesList).2 =
          [SearchQuery.requested, SearchQuery.reviewed,
            SearchQuery.menteeRequested, SearchQuery.menteeReviewed]) := by
  constructor
  · intro h
    subst h
    rfl
  · intro h
    have hlen : ¬ menteesList.length < 1 := by
      cases menteesList with
      | nil => exact absurd rfl h
      | cons a l => simp
    unfold getReviewLoadingOfUser
    rw [if_neg hlen]
    refine ⟨?_, rfl⟩
    show results .requested + results .reviewed
        - results .menteeRequested * menteePullWeight
        - results .menteeReviewed * menteePullWeight = _
    rw [menteePullWeight]
    ring

/-- Witness for C6: concrete counts 4, 3, 2, 1 with one mentee give the
score `4 + 3 − 0.5·(2 + 1)`, and with no mentees the raw sum `4 + 3`. -/
theorem c6_load_discount_witness :
    ((["x"] : List String) ≠ []) ∧
      (getReviewLoadingOfUser
        (fun q => match q with
          | .requested => 4
          | .reviewed => 3
          | .menteeRequested => 2
          | .menteeReviewed => 1) ["x"]).1 =
        4 + 3 - menteePullWeight * (2 + 1) :=
  ⟨by decide,
    ((c6_load_discount
      (fun q => match q with
        | .requested => 4
        | .reviewed => 3
        | .menteeRequested => 2
        | .menteeReviewed => 1) ["x"]).2 (by decide)).1⟩

/-- Claim C7: in load-ranked mode the selection is a deterministic function
of the configuration snapshot, the author, the already-involved list and
the load-query results (two runs on identical inputs return identical
ordered selections), and the ranking sort is ascending by load and stable:
candidates with equal load scores keep their original tier-relative order
(the elements of any score class appear in input order). -/
theorem c7_ranked_deterministic_stable :
    (∀ (cfg cfg2 : Config) (loading loading2 : String → ℚ) (author author2 : String)
        (initialReviewers initialReviewers2 : List String) (count count2 : Int),
      cfg = cfg2 → loading = loading2 → author = author2 →
      initialReviewers = initialReviewers2 → count = count2 →
      getReviewersRanked cfg loading author initialReviewers count =
        getReviewersRanked cfg2 loading2 author2 initialReviewers2 count2) ∧
    (∀ (loading : String → ℚ) (names : List String),
      (getUsersSortedByReviewLoading loading names).Pairwise
        (fun u v => loading u ≤ loading v)) ∧
    (∀ (loading : String → ℚ) (names : List String) (q : ℚ),
      (getUsersSortedByReviewLoading loading names).filter
          (fun u => decide (loading u = q)) =
        names.filter (fun u => decide (loading u = q))) := by
  refine ⟨?_, ?_, ?_⟩
  · intro cfg cfg2 loading loading2 author author2 inv inv2 count count2 h1 h2 h3 h4 h5
    subst h1
    subst h2
    subst h3
    subst h4
    subst h5
    rfl
  · intro loading names
    exact pairwise_ldSortBy loading names
  · intro loading names q
    exact filter_ldSortBy loading names q

/-- Witness for C7: two runs on the same concrete snapshot agree. -/
theorem c7_ranked_deterministic_stable_witness :
    ((⟨[["a", "t"]], [], []⟩ : Config) = ⟨[["a", "t"]], [], []⟩) ∧
      getReviewersRanked ⟨[["a", "t"]], [], []⟩ (fun _ => 0) "a" [] 1 =
        getReviewersRanked ⟨[["a", "t"]], [], []⟩ (fun _ => 0) "a" [] 1 :=
  ⟨rfl,
    c7_ranked_deterministic_stable.1 ⟨[["a", "t"]], [], []⟩ ⟨[["a", "t"]], [], []⟩
      (fun _ => 0) (fun _ => 0) "a" "a" [] [] 1 1 rfl rfl rfl rfl rfl⟩

theorem foldl_enqueue_spec {ε α : Type} (ts : List (RLTask ε α)) :
    ∀ s : RLState ε α,
      (ts.foldl RLState.enqueue s).queue = s.queue ++ ts ∧
        (ts.foldl RLState.enqueue s).started = s.started ∧
        (ts.foldl RLState.enqueue s).settled = s.settled := by
  induction ts with
  | nil => intro s; simp
  | cons t rest ih =>
      intro s
      rcases ih (s.enqueue t) with ⟨h1, h2, h3⟩
      refine ⟨?_, ?_, ?_⟩
      · rw [List.foldl_cons, h1]
        simp [RLState.enqueue]
      · rw [List.foldl_cons, h2]
        rfl
      · rw [List.foldl_cons, h3]
        rfl

theorem tickN_spec {ε α : Type} :
    ∀ (n : Nat) (s : RLState ε α),
      (s.tickN n).started = s.started ++ (s.queue.take n).map RLTask.id ∧
        (s.tickN n).settled =
          s.settled ++ (s.queue.take n).map (fun t => (t.id, t.outcome)) := by
  intro n
  induction n with
  | zero => intro s; simp [RLState.tickN]
  | succ n ih =>
      intro s
      have hstep : s.tickN (n + 1) = (s.tick).tickN n := rfl
      cases hq : s.queue with
      | nil =>
          have ht : s.tick = s := by
            unfold RLState.tick
            rw [hq]
          rw [hstep, ht]
          rcases ih s with ⟨h1, h2⟩
          rw [hq] at h1 h2
          simp [h1, h2]
      | cons t rest =>
          have ht : s.tick = ⟨rest, s.counter - 1,
              (if s.counter - 1 = 0 then false else s.running),
              s.started ++ [t.id], s.settled ++ [(t.id, t.outcome)]⟩ := by
            unfold RLState.tick
            rw [hq]
          rcases ih s.tick with ⟨h1, h2⟩
          rw [ht] at h1 h2
          rw [hstep, ht]
          dsimp only at h1 h2 ⊢
          rw [h1, h2]
          simp

/-- Claim C8: operations enqueued into a fresh rate limiter are dequeued
and started one per tick in FIFO admission order; after `n` ticks exactly
the first `min n |ts|` operations have started, and each deferred result
has been settled with that operation's own outcome.  The statement holds
for arbitrary outcome lists, so a rejecting operation never prevents the
later operations from being dequeued and started. -/
theorem c8_rate_limiter_fifo {ε α : Type} (ts : List (RLTask ε α)) (n : Nat) :
    ((enqueueAll ts).tickN n).started = (ts.take n).map RLTask.id ∧
      ((enqueueAll ts).tickN n).settled =
        (ts.take n).map (fun t => (t.id, t.outcome)) ∧
      ((enqueueAll ts).tickN n).started.length = min n ts.length := by
  rcases foldl_enqueue_spec ts (RLState.init) with ⟨hq, hst, hse⟩
  have hq2 : (enqueueAll ts).queue = ts := by
    rw [enqueueAll, hq]
    rfl
  have hst2 : (enqueueAll ts).started = [] := hst
  have hse2 : (enqueueAll ts).settled = [] := hse
  rcases tickN_spec n (enqueueAll ts) with ⟨h1, h2⟩
  rw [hq2, hst2] at h1
  rw [hq2, hse2] at h2
  simp only [List.nil_append] at h1 h2
  refine ⟨h1, h2, ?_⟩
  rw [h1]
  simp

/-- Claim C9, counterexample: when the event payload carries no pull
request (`context.payload.pull_request` is `undefined`), the property read
performed before the `try` block throws a TypeError that escapes `run`
uncaught — it is not reported through `core.setFailed`. -/
theorem c9_payload_outside_try_cex :
    runRanked ⟨none⟩ 2 (Except.ok []) (Except.ok [])
        (fun _ _ => Except.ok []) (fun _ => Except.ok ()) =
      RunOutcome.uncaught JsError.typeError ∧
    RunOutcome.uncaught JsError.typeError ≠ RunOutcome.failed JsError.typeError := by
  exact ⟨rfl, by decide⟩

/-- Claim C9 (amended): for a non-draft pull request present in the
payload, every stage failure inside the `try` block — listing existing
reviews, listing requested reviewers, the whole selection pipeline
(config fetch, load queries, pool building) and the final submission — is
caught at the top level and reported as a run failure with that error;
but the payload reads before the `try` block are not covered (see the
counterexample). -/
theorem c9_pipeline_errors_reported_amended
    (pr : PullRequestPayload) (count : Int) (e : JsError)
    (hdraft : pr.draft = false) :
    (∀ (listRequested : Except JsError (List String))
        (select : String → List String → Except JsError (List String))
        (submit : List String → Except JsError Unit),
      runRanked ⟨some pr⟩ count (Except.error e) listRequested select submit =
        RunOutcome.failed e) ∧
    (∀ (reviewLogins : List String)
        (select : String → List String → Except JsError (List String))
        (submit : List String → Except JsError Unit),
      runRanked ⟨some pr⟩ count (Except.ok reviewLogins) (Except.error e) select submit =
        RunOutcome.failed e) ∧
    (∀ (reviewLogins requestedUsers : List String)
        (select : String → List String → Except JsError (List String))
        (submit : List String → Except JsError Unit),
      ¬ ((((ldUniq reviewLogins).filter (fun u => u ≠ pr.authorLogin) ++
          requestedUsers).length : Int) ≥ count) →
      select pr.authorLogin
          ((ldUniq reviewLogins).filter (fun u => u ≠ pr.authorLogin) ++ requestedUsers) =
        Except.error e →
      runRanked ⟨some pr⟩ count (Except.ok reviewLogins) (Except.ok requestedUsers)
          select submit =
        RunOutcome.failed e) ∧
    (∀ (reviewLogins requestedUsers reviewers : List String)
        (select : String → List String → Except JsError (List String))
        (submit : List String → Except JsError Unit),
      ¬ ((((ldUniq reviewLogins).filter (fun u => u ≠ pr.authorLogin) ++
          requestedUsers).length : Int) ≥ count) →
      select pr.authorLogin
          ((ldUniq reviewLogins).filter (fun u => u ≠ pr.authorLogin) ++ requestedUsers) =
        Except.ok reviewers →
      submit reviewers = Except.error e →
      runRanked ⟨some pr⟩ count (Except.ok reviewLogins) (Except.ok requestedUsers)
          select submit =
        RunOutcome.failed e) := by
  refine ⟨?_, ?_, ?_, ?_⟩
  · intro listRequested select submit
    unfold runRanked
    dsimp only
    rw [hdraft]
    rfl
  · intro reviewLogins select submit
    unfold runRanked
    dsimp only
    rw [hdraft]
    rfl
  · intro reviewLogins requestedUsers select submit hlt hsel
    unfold runRanked
    dsimp only
    rw [hdraft]
    rw [if_neg (by decide : ¬ (false = true))]
    rw [if_neg hlt, hsel]
  · intro reviewLogins requestedUsers reviewers select submit hlt hsel hsub
    unfold runRanked
    dsimp only
    rw [hdraft]
    rw [if_neg (by decide : ¬ (false = true))]
    rw [if_neg hlt, hsel]
    dsimp only
    rw [hsub]

/-- Witness for C9: a failing review-listing call on a non-draft pull
request is reported as a run failure with its own error. -/
theorem c9_pipeline_errors_reported_witness :
    ((⟨1, false, "a"⟩ : PullRequestPayload).draft = false) ∧
      runRanked ⟨some ⟨1, false, "a"⟩⟩ 2 (Except.error (JsError.other "boom"))
          (Except.ok []) (fun _ _ => Except.ok []) (fun _ => Except.ok ()) =
        RunOutcome.failed (JsError.other "boom") :=
  ⟨rfl,
    (c9_pipeline_errors_reported_amended ⟨1, false, "a"⟩ 2 (JsError.other "boom") rfl).1
      (Except.ok []) (fun _ _ => Except.ok []) (fun _ => Except.ok ())⟩

/-- Claim C10: `randomPick` returns `min (max pickCount 0) |candidates|`
elements (note `Int.toNat` is exactly `max · 0`), all drawn from the
candidate list with each position of the shuffled copy used at most once
(so no element is used more often than it occurs among the candidates),
and a zero or negative `pickCount` yields the empty list; the function is
pure — the shuffle operates on a copy, so the candidate list itself is
unchanged. -/
theorem c10_randomPick_spec (pickCount : Int) (candidates shuffledCandidates : List String)
    (hperm : shuffledCandidates.Perm candidates) :
    (randomPick pickCount shuffledCandidates).length =
        min pickCount.toNat candidates.length ∧
      (∀ x ∈ randomPick pickCount shuffledCandidates, x ∈ candidates) ∧
      (∀ x, (randomPick pickCount shuffledCandidates).count x ≤ candidates.count x) ∧
      (pickCount ≤ 0 → randomPick pickCount shuffledCandidates = []) := by
  refine ⟨?_, ?_, ?_, ?_⟩
  · rw [length_randomPick, hperm.length_eq]
  · intro x hx
    exact hperm.mem_iff.mp (mem_randomPick _ _ _ hx)
  · intro x
    exact le_trans (count_randomPick _ _ x) (hperm.count_eq x).le
  · intro hp
    rw [randomPick_eq]
    have h0 : pickCount.toNat = 0 := by omega
    rw [h0]
    rfl

/-- Witness for C10: picking 2 of 3 candidates returns 2 of them. -/
theorem c10_randomPick_spec_witness :
    (["a", "b", "c"] : List String).Perm ["a", "b", "c"] ∧
      (randomPick 2 ["a", "b", "c"]).length =
        min (Int.toNat 2) (["a", "b", "c"] : List String).length :=
  ⟨List.Perm.refl _,
    (c10_randomPick_spec 2 ["a", "b", "c"] ["a", "b", "c"] (List.Perm.refl _)).1⟩

end RequestReview
